import Mathlib

/-!
# Verification of the Synergy client protocol engine (`client_synergy.py`)

Shallow embedding of the protocol engine of the repository:

* `Protocol` — template-driven codec: `Protocol.parse`, `Protocol.format`,
  the private helpers `__read_int` / `__unpack_int`, and `Protocol._parse`;
* `ProtocolMsg` — the registry of message templates;
* `MessageHandler` — the name-derived dispatch (`get_handler`, `on_hello`);
* `Stream` — length-prefixed framing (`Stream.read`).

Python values are modelled as follows: `bytes` objects are lists of natural
numbers (each element `< 256` when produced by the real runtime); `str`
objects are lists of Unicode code points; a raised exception is the `none`
of an `Option` result (several distinct Python exception classes all become
`none`, since the claims only distinguish success from failure).

Functions whose Python originals loop over the template string are given a
fuel parameter so that they are structurally recursive and hence compute by
kernel reduction; every recursive call consumes at least one template
character, so fuel `fmt.length + 1` (supplied by the public wrappers) is
always sufficient.
-/

/-- Code points of a Lean string literal; used to transcribe the Python
string literals of the source. -/
def strBytes (s : String) : List Nat := s.data.map Char.toNat

/-- An element of the list built by the `%I` (vector) directive: the Python
loop appends alternately `str` tags and `int` values. -/
inductive VecElem where
  | str (s : List Nat)
  | int (n : Int)
deriving DecidableEq, Repr

/-- A Python runtime value as far as the protocol engine is concerned:
integers, `str` (code points), `bytes` (byte values), and the tag/value
lists produced by the vector directive. -/
inductive PyVal where
  | int (n : Int)
  | str (s : List Nat)
  | bytes (b : List Nat)
  | list (xs : List VecElem)
deriving DecidableEq, Repr

/-- The value a format argument comes back as after a parse round trip:
`str` arguments are emitted as their ASCII bytes and re-read as raw bytes. -/
def outVal : PyVal → PyVal
  | PyVal.str s => PyVal.bytes s
  | v => v

namespace Protocol

/-- Loop body of `Protocol.__read_int`: accumulates decimal digits from the
front of the template.  Python returns `(None, None)` when the template ends
while still inside the digit run, and raises `IndexError` when called on an
empty string; both error paths are `none` (each leads to an exception in the
caller). -/
def read_int_loop (ret : Nat) : List Nat → Option (Nat × List Nat)
  | [] => none
  | c :: rest =>
    if 48 ≤ c ∧ c ≤ 57 then
      match rest with
      | [] => none
      | _ :: _ => read_int_loop (ret * 10 + (c - 48)) rest
    else some (ret, c :: rest)

/-- Model of `Protocol.__read_int`: read a decimal integer off the front of the
template, returning it with the remaining template characters. -/
def read_int (buf : List Nat) : Option (Nat × List Nat) :=
  read_int_loop 0 buf

/-- Big-endian unsigned value of a byte list (`int.from_bytes(_, 'big')`). -/
def beNat (bs : List Nat) : Nat := bs.foldl (fun a b => a * 256 + b) 0

/-- Reinterpret an unsigned `width`-byte value as two's-complement signed,
as `struct.unpack` does for `>b`, `>h`, `>i`. -/
def toSigned (u : Nat) (width : Nat) : Int :=
  if u < 2 ^ (8 * width - 1) then (u : Int) else (u : Int) - 2 ^ (8 * width)

/-- Big-endian bytes of an unsigned value, as `struct.pack` emits. -/
def packBE (width : Nat) (u : Nat) : List Nat :=
  (List.range width).map (fun i => u / 256 ^ (width - 1 - i) % 256)

/-- Two's-complement unsigned image of a signed value of the given width. -/
def ofSigned (n : Int) (width : Nat) : Nat := (n % 2 ^ (8 * width)).toNat

/-- Model of `Protocol.__unpack_int`: unpack a big-endian signed integer of the given
width from the front of the buffer.  A width other than 1, 2, 4 leaves
`struct_fmt` unbound in the Python source (`UnboundLocalError`), and a
buffer shorter than `width` makes `struct.unpack` raise `struct.error`;
both are `none`. -/
def unpack_int (buf : List Nat) (width : Nat) : Option (Int × List Nat) :=
  if width = 1 ∨ width = 2 ∨ width = 4 then
    if (buf.take width).length = width then
      some (toSigned (beNat (buf.take width)) width, buf.drop width)
    else none
  else none

/-- The `>b` / `>h` / `>i` range check performed by `struct.pack`. -/
def packRange (n : Int) (width : Nat) : Prop :=
  -(2 ^ (8 * width - 1) : Int) ≤ n ∧ n < 2 ^ (8 * width - 1)

instance (n : Int) (width : Nat) : Decidable (packRange n width) := by
  unfold packRange; infer_instance

/-- Model of `Protocol.format`, fuelled.  `sf` carries the width bound to the Python
local variable `struct_fmt` by a previous loop iteration: when a directive's
width is not 1, 2 or 4 the source silently reuses the previous binding (or
raises `UnboundLocalError` when there is none). -/
def formatGo : Nat → Option Nat → List Nat → List PyVal → Option (List Nat)
  | 0, _, _, _ => none
  | fuel + 1, sf, fmt, args =>
    match fmt with
    | [] => some []
    | c :: fmtT =>
      if c = 37 then
        match read_int fmtT with
        | none => none
        | some (width, fmt1) =>
          match fmt1 with
          | [] => none
          | fmtId :: fmt2 =>
            if fmtId = 105 then
              if width = 0 then none
              else
                match args with
                | [] => none
                | PyVal.int n :: args' =>
                  match (if width = 1 ∨ width = 2 ∨ width = 4 then some width else sf) with
                  | none => none
                  | some w =>
                    if packRange n w then
                      (formatGo fuel (some w) fmt2 args').map
                        (fun r => packBE w (ofSigned n w) ++ r)
                    else none
                | _ :: _ => none
            else if fmtId = 115 then
              match args with
              | [] => none
              | PyVal.str s :: args' =>
                if s.all (· < 128) then
                  if (s.length : Int) < 2 ^ 31 then
                    (formatGo fuel sf fmt2 args').map
                      (fun r => packBE 4 (ofSigned s.length 4) ++ s ++ r)
                  else none
                else none
              | _ :: _ => none
            else none
      else if c < 128 then (formatGo fuel sf fmtT args).map (fun r => c :: r) else none

/-- Model of `Protocol.format`: encode `args` against template `fmt`. -/
def format (fmt : List Nat) (args : List PyVal) : Option (List Nat) :=
  formatGo (fmt.length + 1) none fmt args

/-- Result of `Protocol._parse`: a value list, the `None` returned on a
literal mismatch, or a raised exception. -/
inductive ParseOut where
  | ok (vals : List PyVal)
  | mismatch
  | error
deriving DecidableEq, Repr

/-- The `for i in range(vec_len)` loop of the `%I` (vector) directive:
alternately a 4-byte ASCII tag (even `i`) and a 4-byte big-endian signed
integer (odd `i`).  `decode('ascii')` raises on a byte `≥ 128`. -/
def vecGo : Nat → Nat → List Nat → List VecElem → Option (List VecElem × List Nat)
  | 0, _, msg, acc => some (acc, msg)
  | k + 1, i, msg, acc =>
    if i % 2 = 0 then
      if (msg.take 4).all (· < 128) then
        vecGo k (i + 1) (msg.drop 4) (acc ++ [VecElem.str (msg.take 4)])
      else none
    else
      match unpack_int msg 4 with
      | none => none
      | some (v, msg') => vecGo k (i + 1) msg' (acc ++ [VecElem.int v])

/-- Python slice `l[:k]` for a possibly negative `k`. -/
def pySliceTo (k : Int) (l : List Nat) : List Nat :=
  if 0 ≤ k then l.take k.toNat else l.take (l.length - (-k).toNat)

/-- Python slice `l[k:]` for a possibly negative `k`. -/
def pySliceFrom (k : Int) (l : List Nat) : List Nat :=
  if 0 ≤ k then l.drop k.toNat else l.drop (l.length - (-k).toNat)

/-- Model of `Protocol._parse`, fuelled: scan the template against the buffer,
collecting directive values.  A literal mismatch is the distinguished
`mismatch` outcome (the Python `return None`); every raised exception is
`error`. -/
def parseLoop : Nat → List Nat → List Nat → List PyVal → ParseOut
  | 0, _, _, _ => ParseOut.error
  | fuel + 1, fmt, msg, ret =>
    match fmt with
    | [] => ParseOut.ok ret
    | c :: fmtT =>
      if c = 37 then
        match read_int fmtT with
        | none => ParseOut.error
        | some (width, fmt1) =>
          match fmt1 with
          | [] => ParseOut.error
          | fmtId :: fmt2 =>
            if fmtId = 105 then
              if width = 0 then ParseOut.error
              else
                match unpack_int msg width with
                | none => ParseOut.error
                | some (v, msg') => parseLoop fuel fmt2 msg' (ret ++ [PyVal.int v])
            else if fmtId = 73 then
              if width = 0 then ParseOut.error
              else
                match unpack_int msg 4 with
                | none => ParseOut.error
                | some (vecLen, msg1) =>
                  match vecGo vecLen.toNat 0 msg1 [] with
                  | none => ParseOut.error
                  | some (vecVals, msg2) =>
                    parseLoop fuel fmt2 msg2 (ret ++ [PyVal.list vecVals])
            else if fmtId = 115 then
              if msg.length = 0 ∧ fmt2.length = 0 then
                parseLoop fuel fmt2 msg ret
              else
                match unpack_int msg 4 with
                | none => ParseOut.error
                | some (strlen, msg1) =>
                  parseLoop fuel fmt2 (pySliceFrom strlen msg1)
                    (ret ++ [PyVal.bytes (pySliceTo strlen msg1)])
            else ParseOut.error
      else
        match msg with
        | [] => ParseOut.error
        | b :: msg' => if c ≠ b then ParseOut.mismatch else parseLoop fuel fmtT msg' ret

/-- Model of `Protocol._parse` on a whole template. -/
def parseFmt (fmt : List Nat) (msg : List Nat) : ParseOut :=
  parseLoop (fmt.length + 1) fmt msg []

end Protocol

namespace ProtocolMsg

def kMsgHello : List Nat := strBytes "Synergy%2i%2i"
def kMsgHelloBack : List Nat := strBytes "Synergy%2i%2i%s"
def kMsgCNoop : List Nat := strBytes "CNOP"
def kMsgCClose : List Nat := strBytes "CBYE"
def kMsgCEnter : List Nat := strBytes "CINN%2i%2i%4i%2i"
def kMsgCLeave : List Nat := strBytes "COUT"
def kMsgCClipboard : List Nat := strBytes "CCLP%1i%4i"
def kMsgCScreenSaver : List Nat := strBytes "CSEC%1i"
def kMsgCResetOptions : List Nat := strBytes "CROP"
def kMsgCInfoAck : List Nat := strBytes "CIAK"
def kMsgCKeepAlive : List Nat := strBytes "CALV"
def kMsgDKeyDownLang : List Nat := strBytes "DKDL%2i%2i%2i%s"
def kMsgDKeyDown : List Nat := strBytes "DKDN%2i%2i%2i"
def kMsgDKeyDown1_0 : List Nat := strBytes "DKDN%2i%2i"
def kMsgDKeyRepeat : List Nat := strBytes "DKRP%2i%2i%2i%2i%s"
def kMsgDKeyRepeat1_0 : List Nat := strBytes "DKRP%2i%2i%2i"
def kMsgDKeyUp : List Nat := strBytes "DKUP%2i%2i%2i"
def kMsgDKeyUp1_0 : List Nat := strBytes "DKUP%2i%2i"
def kMsgDMouseDown : List Nat := strBytes "DMDN%1i"
def kMsgDMouseUp : List Nat := strBytes "DMUP%1i"
def kMsgDMouseMove : List Nat := strBytes "DMMV%2i%2i"
def kMsgDMouseRelMove : List Nat := strBytes "DMRM%2i%2i"
def kMsgDMouseWheel : List Nat := strBytes "DMWM%2i%2i"
def kMsgDMouseWheel1_0 : List Nat := strBytes "DMWM%2i"
def kMsgDClipboard : List Nat := strBytes "DCLP%1i%4i%1i%s"
def kMsgDInfo : List Nat := strBytes "DINF%2i%2i%2i%2i%2i%2i%2i"
def kMsgDSetOptions : List Nat := strBytes "DSOP%4I"
def kMsgDFileTransfer : List Nat := strBytes "DFTR%1i%s"
def kMsgDDragInfo : List Nat := strBytes "DDRG%2i%s"
def kMsgDSecureInputNotification : List Nat := strBytes "SECN%s"
def kMsgDLanguageSynchronisation : List Nat := strBytes "LSYN%s"
def kMsgQInfo : List Nat := strBytes "QINF"
def kMsgEIncompatible : List Nat := strBytes "EICV%2i%2i"
def kMsgEBusy : List Nat := strBytes "EBSY"
def kMsgEUnknown : List Nat := strBytes "EUNK"
def kMsgEBad : List Nat := strBytes "EBAD"

end ProtocolMsg

namespace Protocol

/-- Model of `Protocol.msg_types`: the dictionary built in `Protocol.__init__` from
the `kMsg*` attributes of `ProtocolMsg`, in class-body (hence insertion)
order, mapping each message name to its template. -/
def msg_types : List (List Nat × List Nat) := [
  (strBytes "kMsgHello", ProtocolMsg.kMsgHello),
  (strBytes "kMsgHelloBack", ProtocolMsg.kMsgHelloBack),
  (strBytes "kMsgCNoop", ProtocolMsg.kMsgCNoop),
  (strBytes "kMsgCClose", ProtocolMsg.kMsgCClose),
  (strBytes "kMsgCEnter", ProtocolMsg.kMsgCEnter),
  (strBytes "kMsgCLeave", ProtocolMsg.kMsgCLeave),
  (strBytes "kMsgCClipboard", ProtocolMsg.kMsgCClipboard),
  (strBytes "kMsgCScreenSaver", ProtocolMsg.kMsgCScreenSaver),
  (strBytes "kMsgCResetOptions", ProtocolMsg.kMsgCResetOptions),
  (strBytes "kMsgCInfoAck", ProtocolMsg.kMsgCInfoAck),
  (strBytes "kMsgCKeepAlive", ProtocolMsg.kMsgCKeepAlive),
  (strBytes "kMsgDKeyDownLang", ProtocolMsg.kMsgDKeyDownLang),
  (strBytes "kMsgDKeyDown", ProtocolMsg.kMsgDKeyDown),
  (strBytes "kMsgDKeyDown1_0", ProtocolMsg.kMsgDKeyDown1_0),
  (strBytes "kMsgDKeyRepeat", ProtocolMsg.kMsgDKeyRepeat),
  (strBytes "kMsgDKeyRepeat1_0", ProtocolMsg.kMsgDKeyRepeat1_0),
  (strBytes "kMsgDKeyUp", ProtocolMsg.kMsgDKeyUp),
  (strBytes "kMsgDKeyUp1_0", ProtocolMsg.kMsgDKeyUp1_0),
  (strBytes "kMsgDMouseDown", ProtocolMsg.kMsgDMouseDown),
  (strBytes "kMsgDMouseUp", ProtocolMsg.kMsgDMouseUp),
  (strBytes "kMsgDMouseMove", ProtocolMsg.kMsgDMouseMove),
  (strBytes "kMsgDMouseRelMove", ProtocolMsg.kMsgDMouseRelMove),
  (strBytes "kMsgDMouseWheel", ProtocolMsg.kMsgDMouseWheel),
  (strBytes "kMsgDMouseWheel1_0", ProtocolMsg.kMsgDMouseWheel1_0),
  (strBytes "kMsgDClipboard", ProtocolMsg.kMsgDClipboard),
  (strBytes "kMsgDInfo", ProtocolMsg.kMsgDInfo),
  (strBytes "kMsgDSetOptions", ProtocolMsg.kMsgDSetOptions),
  (strBytes "kMsgDFileTransfer", ProtocolMsg.kMsgDFileTransfer),
  (strBytes "kMsgDDragInfo", ProtocolMsg.kMsgDDragInfo),
  (strBytes "kMsgDSecureInputNotification", ProtocolMsg.kMsgDSecureInputNotification),
  (strBytes "kMsgDLanguageSynchronisation", ProtocolMsg.kMsgDLanguageSynchronisation),
  (strBytes "kMsgQInfo", ProtocolMsg.kMsgQInfo),
  (strBytes "kMsgEIncompatible", ProtocolMsg.kMsgEIncompatible),
  (strBytes "kMsgEBusy", ProtocolMsg.kMsgEBusy),
  (strBytes "kMsgEUnknown", ProtocolMsg.kMsgEUnknown),
  (strBytes "kMsgEBad", ProtocolMsg.kMsgEBad)]

/-- Model of `str.encode('ascii')`: identity on the code points when they are all
ASCII, `UnicodeEncodeError` (hence `none`) otherwise. -/
def encodeAscii (l : List Nat) : Option (List Nat) :=
  if l.all (· < 128) then some l else none

/-- The loop of `Protocol.parse`: scan registered message definitions in
order, select the first whose 4-byte template prefix equals the first
4 bytes of the buffer, and run `_parse` on it.  A `_parse` mismatch makes
the Python `[msg_name] + None` raise `TypeError`; a `_parse` exception
propagates; both are `none`.  An exhausted scan is the `ValueError` of the
source, also `none`. -/
def parseGo : List (List Nat × List Nat) → List Nat → Option (List PyVal)
  | [], _msg => none
  | (name, fmt) :: rest, msg =>
    match encodeAscii (fmt.take 4) with
    | none => none
    | some ident =>
      if msg.take 4 = ident then
        match parseFmt fmt msg with
        | ParseOut.ok vals => some (PyVal.str name :: vals)
        | _ => none
      else parseGo rest msg

/-- Model of `Protocol.parse`. -/
def parse (msg : List Nat) : Option (List PyVal) := parseGo msg_types msg

/-- Argument tuples accepted by `Protocol.format` for a template, consuming
the arguments exactly: each `%...i` directive takes one integer that fits
the declared width (which must be 1, 2 or 4), each `%...s` takes one ASCII
string whose length fits the signed 32-bit length field, and no directive
kind other than `i` and `s` occurs.  Fuelled like the functions above. -/
def validArgsGo : Nat → List Nat → List PyVal → Bool
  | 0, _, _ => false
  | fuel + 1, fmt, args =>
    match fmt with
    | [] => args.isEmpty
    | c :: fmtT =>
      if c = 37 then
        match read_int fmtT with
        | none => false
        | some (width, fmt1) =>
          match fmt1 with
          | [] => false
          | fmtId :: fmt2 =>
            if fmtId = 105 then
              match args with
              | PyVal.int n :: args' =>
                decide (width = 1 ∨ width = 2 ∨ width = 4) &&
                  decide (packRange n width) && validArgsGo fuel fmt2 args'
              | _ => false
            else if fmtId = 115 then
              match args with
              | PyVal.str s :: args' =>
                s.all (· < 128) && decide ((s.length : Int) < 2 ^ 31) &&
                  validArgsGo fuel fmt2 args'
              | _ => false
            else false
      else validArgsGo fuel fmtT args

/-- Wrapper running `validArgsGo` with sufficient fuel. -/
def validArgs (fmt : List Nat) (args : List PyVal) : Bool :=
  validArgsGo (fmt.length + 1) fmt args

end Protocol

namespace MessageHandler

/-- The method-name transformation of `MessageHandler.get_handler`:
`'on' + re.sub('[A-Z]', lambda m: '_' + m.group(0).lower(), msg_name[4:])`.
`[A-Z]` matches exactly the ASCII code points 65–90, and `.lower()` on such
a character adds 32. -/
def deriveKey (msg_name : List Nat) : List Nat :=
  strBytes "on" ++
    (msg_name.drop 4).flatMap (fun c => if 65 ≤ c ∧ c ≤ 90 then [95, c + 32] else [c])

/-- The `on_*` methods defined on `MessageHandler`, in class-body order.
`__getattribute__` can resolve a derived `on...` name exactly when it is
one of these (every other attribute of the class or instance starts with a
different character). -/
def handlerNames : List (List Nat) := [
  strBytes "on_hello",
  strBytes "on_hello_back",
  strBytes "on_c_noop",
  strBytes "on_c_close",
  strBytes "on_c_enter",
  strBytes "on_c_leave",
  strBytes "on_c_clipboard",
  strBytes "on_c_screen_saver",
  strBytes "on_c_reset_options",
  strBytes "on_c_info_ack",
  strBytes "on_c_keep_alive",
  strBytes "on_d_key_down_lang",
  strBytes "on_d_key_down",
  strBytes "on_d_key_down1_0",
  strBytes "on_d_key_repeat",
  strBytes "on_d_key_repeat1_0",
  strBytes "on_d_key_up",
  strBytes "on_d_key_up1_0",
  strBytes "on_d_mouse_down",
  strBytes "on_d_mouse_up",
  strBytes "on_d_mouse_move",
  strBytes "on_d_mouse_rel_move",
  strBytes "on_d_mouse_wheel",
  strBytes "on_d_mouse_wheel1_0",
  strBytes "on_d_clipboard",
  strBytes "on_d_info",
  strBytes "on_d_set_options",
  strBytes "on_d_file_transfer",
  strBytes "on_d_drag_info",
  strBytes "on_d_secure_input_notification",
  strBytes "on_d_language_synchronisation",
  strBytes "on_q_info",
  strBytes "on_e_incompatible",
  strBytes "on_e_busy",
  strBytes "on_e_unknown",
  strBytes "on_e_bad"]

/-- Model of `MessageHandler.get_handler`: derive the method name and look it up;
an unregistered key raises `KeyError` (the `none` case), never succeeding
silently. -/
def get_handler (msg_name : List Nat) : Option (List Nat) :=
  if deriveKey msg_name ∈ handlerNames then some (deriveKey msg_name) else none

/-- Model of `MessageHandler.on_hello`: unpacks `msg_info[1:]` into exactly two
version numbers (any other arity raises, hence `none`) and replies with
`format(ProtocolMsg.kMsgHelloBack, 1, 6, 'tablet')`. -/
def on_hello (msg_info : List PyVal) : Option (List Nat) :=
  match msg_info with
  | [_, _, _] =>
    Protocol.format ProtocolMsg.kMsgHelloBack
      [PyVal.int 1, PyVal.int 6, PyVal.str (strBytes "tablet")]
  | _ => none

end MessageHandler

namespace Stream

/-- The `while to_receive > 0` loop of `Stream.read`.  `script` lists the
bytes each successive `sock.recv` call returns; once the list is exhausted
the connection is closed, so `recv` returns `b''` forever.  `data` is the
accumulated buffer; the source then subtracts `len(data)` — the cumulative
length, not the last chunk's — from `to_receive`.  The loop can fail to
terminate (a closed connection with `data` still empty), which exhausts the
fuel and yields `none`. -/
def readLoop : Nat → Int → List Nat → List (List Nat) → Option (List Nat)
  | 0, _, _, _ => none
  | fuel + 1, to_receive, data, script =>
    if 0 < to_receive then
      let data' := data ++ script.headD []
      readLoop fuel (to_receive - data'.length) data' script.tail
    else some data

/-- Model of `Stream.read`: one `recv(4)` for the big-endian signed length prefix
(empty means clean end-of-stream, the Python `None`, modelled as
`some none`; any other length than 4 makes `struct.unpack` raise), then the
accumulation loop for the payload. -/
def read (fuel : Nat) (script : List (List Nat)) : Option (Option (List Nat)) :=
  let size_bytes := script.headD []
  if size_bytes.length = 0 then some none
  else if size_bytes.length = 4 then
    match Protocol.unpack_int size_bytes 4 with
    | none => none
    | some (size, _) => (readLoop fuel size [] script.tail).map some
  else none

end Stream

/-- The five registry names whose 4-byte identifier is also the identifier
of an earlier-registered Message Definition (the protocol-1.0 variants and
the client-side `HelloBack`). -/
def shadowedNames : List (List Nat) := [
  strBytes "kMsgHelloBack",
  strBytes "kMsgDKeyDown1_0",
  strBytes "kMsgDKeyRepeat1_0",
  strBytes "kMsgDKeyUp1_0",
  strBytes "kMsgDMouseWheel1_0"]

namespace Protocol

/-- Templates containing only literal bytes and integer directives of the
widths `struct` supports; for these the encoded byte length is fixed, so
truncation is always detected.  Fuelled like the scanner itself. -/
def intLitOnlyGo : Nat → List Nat → Bool
  | 0, _ => false
  | fuel + 1, fmt =>
    match fmt with
    | [] => true
    | c :: fmtT =>
      if c = 37 then
        match read_int fmtT with
        | some (width, 105 :: fmt2) =>
          decide (width = 1 ∨ width = 2 ∨ width = 4) && intLitOnlyGo fuel fmt2
        | _ => false
      else intLitOnlyGo fuel fmtT

/-- Wrapper running `intLitOnlyGo` with sufficient fuel. -/
def intLitOnly (fmt : List Nat) : Bool := intLitOnlyGo (fmt.length + 1) fmt

end Protocol

/-- The dispatcher key derivation as the specification describes it: strip
the fixed 4-character leading marker, insert a boundary before each
internal capitalized segment, lower-case the result, and prefix the `on_`
handler namespace.  Compared against the implementation's `deriveKey`. -/
def deriveKeySpec (msg_name : List Nat) : List Nat :=
  match msg_name.drop 4 with
  | [] => strBytes "on"
  | c :: rest =>
    strBytes "on_" ++
      ((if 65 ≤ c ∧ c ≤ 90 then c + 32 else c) ::
        rest.flatMap (fun d => if 65 ≤ d ∧ d ≤ 90 then [95, d + 32] else [d]))

/-- Byte encoding of a tag/value pair list as the vector directive expects
it on the wire: each pair is a 4-byte tag followed by a 4-byte big-endian
signed integer. -/
def encVec (pairs : List (List Nat × Int)) : List Nat :=
  pairs.flatMap (fun p => p.1 ++ Protocol.packBE 4 (Protocol.ofSigned p.2 4))

/-! ## Supporting lemmas -/

namespace Protocol

theorem read_int_loop_length :
    ∀ (l : List Nat) (ret w : Nat) (l' : List Nat),
      read_int_loop ret l = some (w, l') → l'.length ≤ l.length := by
  intro l
  induction l with
  | nil => intro ret w l' h; simp [read_int_loop] at h
  | cons c rest ih =>
    intro ret w l' h
    rw [read_int_loop.eq_def] at h
    simp only at h
    by_cases hc : 48 ≤ c ∧ c ≤ 57
    · rw [if_pos hc] at h
      cases rest with
      | nil => simp at h
      | cons d rest' =>
        have := ih _ _ _ h
        simp only [List.length_cons] at this ⊢
        omega
    · rw [if_neg hc] at h
      injection h with h1
      injection h1 with h2 h3
      rw [← h3]

theorem read_int_length (l : List Nat) (w : Nat) (l' : List Nat)
    (h : read_int l = some (w, l')) : l'.length ≤ l.length :=
  read_int_loop_length l 0 w l' h

@[simp] theorem packBE_length (w u : Nat) : (packBE w u).length = w := by
  simp [packBE]

theorem beNat_packBE (w u : Nat) (hw : w = 1 ∨ w = 2 ∨ w = 4)
    (hu : u < 2 ^ (8 * w)) : beNat (packBE w u) = u := by
  rcases hw with rfl | rfl | rfl <;>
    · simp only [packBE, beNat, List.range_succ, List.range_zero,
        List.nil_append, List.map_append, List.map_cons, List.map_nil,
        List.foldl_cons, List.foldl_nil, List.cons_append]
      norm_num at hu ⊢
      omega

theorem ofSigned_lt (n : Int) (w : Nat) : ofSigned n w < 2 ^ (8 * w) := by
  unfold ofSigned
  have hcast : ((2 : Int) ^ (8 * w)) = ((2 ^ (8 * w) : Nat) : Int) := by
    push_cast; ring
  have h2 : (0 : Int) < 2 ^ (8 * w) := by positivity
  have hlt := Int.emod_lt_of_pos n h2
  have h0 := Int.emod_nonneg n (by omega : (2 : Int) ^ (8 * w) ≠ 0)
  omega

theorem toSigned_ofSigned (n : Int) (w : Nat) (hw : w = 1 ∨ w = 2 ∨ w = 4)
    (h : packRange n w) : toSigned (ofSigned n w) w = n := by
  obtain ⟨h1, h2⟩ := h
  rcases hw with rfl | rfl | rfl <;>
    · unfold toSigned ofSigned
      norm_num at h1 h2 ⊢
      omega

theorem unpack_int_packBE (w : Nat) (hw : w = 1 ∨ w = 2 ∨ w = 4) (u : Nat)
    (hu : u < 2 ^ (8 * w)) (rest : List Nat) :
    unpack_int (packBE w u ++ rest) w = some (toSigned u w, rest) := by
  unfold unpack_int
  rw [if_pos hw]
  have hlen : (packBE w u).length = w := packBE_length w u
  rw [List.take_left' hlen, List.drop_left' hlen, if_pos hlen,
    beNat_packBE w u hw hu]

/-- One-step unfolding of `parseLoop` at positive fuel, for rewriting. -/
theorem parseLoop_succ (fuel : Nat) (fmt msg : List Nat) (ret : List PyVal) :
    parseLoop (fuel + 1) fmt msg ret =
      match fmt with
      | [] => ParseOut.ok ret
      | c :: fmtT =>
        if c = 37 then
          match read_int fmtT with
          | none => ParseOut.error
          | some (width, fmt1) =>
            match fmt1 with
            | [] => ParseOut.error
            | fmtId :: fmt2 =>
              if fmtId = 105 then
                if width = 0 then ParseOut.error
                else
                  match unpack_int msg width with
                  | none => ParseOut.error
                  | some (v, msg') => parseLoop fuel fmt2 msg' (ret ++ [PyVal.int v])
              else if fmtId = 73 then
                if width = 0 then ParseOut.error
                else
                  match unpack_int msg 4 with
                  | none => ParseOut.error
                  | some (vecLen, msg1) =>
                    match vecGo vecLen.toNat 0 msg1 [] with
                    | none => ParseOut.error
                    | some (vecVals, msg2) =>
                      parseLoop fuel fmt2 msg2 (ret ++ [PyVal.list vecVals])
              else if fmtId = 115 then
                if msg.length = 0 ∧ fmt2.length = 0 then
                  parseLoop fuel fmt2 msg ret
                else
                  match unpack_int msg 4 with
                  | none => ParseOut.error
                  | some (strlen, msg1) =>
                    parseLoop fuel fmt2 (pySliceFrom strlen msg1)
                      (ret ++ [PyVal.bytes (pySliceTo strlen msg1)])
              else ParseOut.error
        else
          match msg with
          | [] => ParseOut.error
          | b :: msg' => if c ≠ b then ParseOut.mismatch else parseLoop fuel fmtT msg' ret := rfl

/-- Step lemma: `parseLoop` on an integer directive. -/
theorem parseLoop_int_step (fuel width : Nat) (fmtT fmt2 msg : List Nat)
    (ret : List PyVal) (hri : read_int fmtT = some (width, 105 :: fmt2))
    (hw0 : width ≠ 0) :
    parseLoop (fuel + 1) (37 :: fmtT) msg ret =
      match unpack_int msg width with
      | none => ParseOut.error
      | some (v, msg') => parseLoop fuel fmt2 msg' (ret ++ [PyVal.int v]) := by
  rw [parseLoop_succ]
  simp [hri, hw0]

/-- Step lemma: `parseLoop` on a vector directive. -/
theorem parseLoop_vec_step (fuel width : Nat) (fmtT fmt2 msg : List Nat)
    (ret : List PyVal) (hri : read_int fmtT = some (width, 73 :: fmt2))
    (hw0 : width ≠ 0) :
    parseLoop (fuel + 1) (37 :: fmtT) msg ret =
      match unpack_int msg 4 with
      | none => ParseOut.error
      | some (vecLen, msg1) =>
        match vecGo vecLen.toNat 0 msg1 [] with
        | none => ParseOut.error
        | some (vecVals, msg2) =>
          parseLoop fuel fmt2 msg2 (ret ++ [PyVal.list vecVals]) := by
  rw [parseLoop_succ]
  simp [hri, hw0]

/-- Step lemma: `parseLoop` on a string directive. -/
theorem parseLoop_str_step (fuel width : Nat) (fmtT fmt2 msg : List Nat)
    (ret : List PyVal) (hri : read_int fmtT = some (width, 115 :: fmt2)) :
    parseLoop (fuel + 1) (37 :: fmtT) msg ret =
      if msg.length = 0 ∧ fmt2.length = 0 then
        parseLoop fuel fmt2 msg ret
      else
        match unpack_int msg 4 with
        | none => ParseOut.error
        | some (strlen, msg1) =>
          parseLoop fuel fmt2 (pySliceFrom strlen msg1)
            (ret ++ [PyVal.bytes (pySliceTo strlen msg1)]) := by
  rw [parseLoop_succ]
  simp [hri]

/-- Step lemma: `parseLoop` on a literal template byte. -/
theorem parseLoop_lit_step (fuel c : Nat) (fmtT msg : List Nat) (ret : List PyVal)
    (hc : c ≠ 37) :
    parseLoop (fuel + 1) (c :: fmtT) msg ret =
      match msg with
      | [] => ParseOut.error
      | b :: msg' => if c ≠ b then ParseOut.mismatch else parseLoop fuel fmtT msg' ret := by
  rw [parseLoop_succ]
  simp [hc]

/-- Step lemma: `parseLoop` on an exhausted template. -/
theorem parseLoop_nil_step (fuel : Nat) (msg : List Nat) (ret : List PyVal) :
    parseLoop (fuel + 1) [] msg ret = ParseOut.ok ret := by
  rw [parseLoop_succ]

/-- Step lemma: `formatGo` on an integer directive with an integer argument. -/
theorem formatGo_int_step (fuel width : Nat) (sf : Option Nat) (fmtT fmt2 : List Nat)
    (n : Int) (args' : List PyVal) (hri : read_int fmtT = some (width, 105 :: fmt2))
    (hw0 : width ≠ 0) (hw : width = 1 ∨ width = 2 ∨ width = 4) :
    formatGo (fuel + 1) sf (37 :: fmtT) (PyVal.int n :: args') =
      if packRange n width then
        (formatGo fuel (some width) fmt2 args').map
          (fun r => packBE width (ofSigned n width) ++ r)
      else none := by
  simp only [formatGo, hri]
  simp [hw0, if_pos hw]

/-- Step lemma: `formatGo` on a string directive with a string argument. -/
theorem formatGo_str_step (fuel width : Nat) (sf : Option Nat) (fmtT fmt2 : List Nat)
    (s : List Nat) (args' : List PyVal)
    (hri : read_int fmtT = some (width, 115 :: fmt2)) :
    formatGo (fuel + 1) sf (37 :: fmtT) (PyVal.str s :: args') =
      if s.all (· < 128) then
        if (s.length : Int) < 2 ^ 31 then
          (formatGo fuel sf fmt2 args').map
            (fun r => packBE 4 (ofSigned s.length 4) ++ s ++ r)
        else none
      else none := by
  simp only [formatGo, hri]
  simp

/-- Step lemma: `formatGo` on a literal template byte. -/
theorem formatGo_lit_step (fuel c : Nat) (sf : Option Nat) (fmtT : List Nat)
    (args : List PyVal) (hc : c ≠ 37) :
    formatGo (fuel + 1) sf (c :: fmtT) args =
      if c < 128 then (formatGo fuel sf fmtT args).map (fun r => c :: r) else none := by
  simp only [formatGo]
  simp [hc]

/-- Step lemma: `validArgsGo` on an integer directive. -/
theorem validArgsGo_int_step (fuel width : Nat) (fmtT fmt2 : List Nat) (n : Int)
    (args' : List PyVal) (hri : read_int fmtT = some (width, 105 :: fmt2)) :
    validArgsGo (fuel + 1) (37 :: fmtT) (PyVal.int n :: args') =
      (decide (width = 1 ∨ width = 2 ∨ width = 4) &&
        decide (packRange n width) && validArgsGo fuel fmt2 args') := by
  simp only [validArgsGo, hri]
  simp

/-- Step lemma: `validArgsGo` on a string directive. -/
theorem validArgsGo_str_step (fuel width : Nat) (fmtT fmt2 : List Nat) (s : List Nat)
    (args' : List PyVal) (hri : read_int fmtT = some (width, 115 :: fmt2)) :
    validArgsGo (fuel + 1) (37 :: fmtT) (PyVal.str s :: args') =
      (s.all (· < 128) && decide ((s.length : Int) < 2 ^ 31) &&
        validArgsGo fuel fmt2 args') := by
  simp only [validArgsGo, hri]
  simp

/-- Step lemma: `validArgsGo` on a literal template byte. -/
theorem validArgsGo_lit_step (fuel c : Nat) (fmtT : List Nat) (args : List PyVal)
    (hc : c ≠ 37) :
    validArgsGo (fuel + 1) (c :: fmtT) args = validArgsGo fuel fmtT args := by
  simp only [validArgsGo]
  simp [hc]

/-- Central round-trip lemma: a buffer produced by `formatGo` from a valid
argument tuple is scanned back by `parseLoop` to exactly those arguments
(ASCII string arguments returning as their raw bytes), leaving any appended
suffix untouched, because the template fully determines the byte layout. -/
theorem parseLoop_formatGo :
    ∀ (fuel : Nat) (fmt : List Nat) (args : List PyVal) (sf : Option Nat)
      (out rest : List Nat) (ret : List PyVal),
      fmt.length < fuel →
      validArgsGo fuel fmt args = true →
      formatGo fuel sf fmt args = some out →
      parseLoop fuel fmt (out ++ rest) ret = ParseOut.ok (ret ++ args.map outVal) := by
  intro fuel
  induction fuel with
  | zero => intro fmt args sf out rest ret hlen _ _; omega
  | succ fuel ih =>
    intro fmt args sf out rest ret hlen hv hf
    cases fmt with
    | nil =>
      simp only [formatGo] at hf
      simp only [validArgsGo, List.isEmpty_iff] at hv
      subst hv
      injection hf with hout
      subst hout
      simp [parseLoop]
    | cons c fmtT =>
      by_cases hc : c = 37
      · subst hc
        cases hri : read_int fmtT with
        | none => simp [formatGo, hri] at hf
        | some wfmt1 =>
          obtain ⟨width, fmt1⟩ := wfmt1
          cases fmt1 with
          | nil => simp [formatGo, hri] at hf
          | cons fmtId fmt2 =>
            have hlen2 : fmt2.length < fuel := by
              have h1 := read_int_length fmtT width (fmtId :: fmt2) hri
              simp only [List.length_cons] at h1 hlen
              omega
            by_cases hfi : fmtId = 105
            · subst hfi
              cases args with
              | nil => simp [validArgsGo, hri] at hv
              | cons a args' =>
                cases a with
                | int n =>
                  rw [validArgsGo_int_step fuel width fmtT fmt2 n args' hri] at hv
                  simp only [Bool.and_eq_true, decide_eq_true_eq] at hv
                  obtain ⟨⟨hw, hrange⟩, hv'⟩ := hv
                  have hw0 : width ≠ 0 := by rcases hw with rfl | rfl | rfl <;> omega
                  rw [formatGo_int_step fuel width sf fmtT fmt2 n args' hri hw0 hw,
                    if_pos hrange] at hf
                  cases hfr : formatGo fuel (some width) fmt2 args' with
                  | none => rw [hfr] at hf; simp at hf
                  | some out' =>
                    rw [hfr] at hf
                    simp only [Option.map_some'] at hf
                    injection hf with hout
                    subst hout
                    have hrec := ih fmt2 args' (some width) out' rest
                      (ret ++ [PyVal.int n]) hlen2 hv' hfr
                    rw [parseLoop_int_step fuel width fmtT fmt2 _ ret hri hw0,
                      List.append_assoc,
                      unpack_int_packBE width hw (ofSigned n width) (ofSigned_lt n width),
                      toSigned_ofSigned n width hw hrange]
                    simp [hrec, outVal]
                | str s => simp [validArgsGo, hri] at hv
                | bytes b => simp [validArgsGo, hri] at hv
                | list xs => simp [validArgsGo, hri] at hv
            · by_cases hfs : fmtId = 115
              · subst hfs
                cases args with
                | nil => simp [validArgsGo, hri, hfi] at hv
                | cons a args' =>
                  cases a with
                  | str s =>
                    rw [validArgsGo_str_step fuel width fmtT fmt2 s args' hri] at hv
                    simp only [Bool.and_eq_true, decide_eq_true_eq] at hv
                    obtain ⟨⟨hascii, hslen⟩, hv'⟩ := hv
                    rw [formatGo_str_step fuel width sf fmtT fmt2 s args' hri,
                      if_pos hascii, if_pos hslen] at hf
                    cases hfr : formatGo fuel sf fmt2 args' with
                    | none => rw [hfr] at hf; simp at hf
                    | some out' =>
                      rw [hfr] at hf
                      simp only [Option.map_some'] at hf
                      injection hf with hout
                      subst hout
                      rw [parseLoop_str_step fuel width fmtT fmt2 _ ret hri]
                      rw [if_neg (by
                        rintro ⟨h0, h1⟩
                        simp [List.length_append] at h0)]
                      have hslen' : (0 : Int) ≤ (s.length : Int) := by positivity
                      have hrange4 : packRange (s.length : Int) 4 := by
                        constructor
                        · norm_num; omega
                        · norm_num at hslen ⊢; omega
                      rw [List.append_assoc, List.append_assoc,
                        unpack_int_packBE 4 (by omega) (ofSigned (s.length : Int) 4)
                          (ofSigned_lt _ 4),
                        toSigned_ofSigned (s.length : Int) 4 (by omega) hrange4]
                      have htake : pySliceTo (s.length : Int) (s ++ (out' ++ rest)) = s := by
                        simp only [pySliceTo, if_pos hslen', Int.toNat_natCast]
                        exact List.take_left' rfl
                      have hdrop : pySliceFrom (s.length : Int) (s ++ (out' ++ rest)) =
                          out' ++ rest := by
                        simp only [pySliceFrom, if_pos hslen', Int.toNat_natCast]
                        exact List.drop_left' rfl
                      have hrec := ih fmt2 args' sf out' rest
                        (ret ++ [PyVal.bytes s]) hlen2 hv' hfr
                      simp [htake, hdrop, hrec, outVal]
                  | int n => simp [validArgsGo, hri, hfi] at hv
                  | bytes b => simp [validArgsGo, hri, hfi] at hv
                  | list xs => simp [validArgsGo, hri, hfi] at hv
              · simp [validArgsGo, hri, hfi, hfs] at hv
      · -- literal byte
        rw [formatGo_lit_step fuel c sf fmtT args hc] at hf
        by_cases h128 : c < 128
        · rw [if_pos h128] at hf
          cases hfr : formatGo fuel sf fmtT args with
          | none => rw [hfr] at hf; simp at hf
          | some out' =>
            rw [hfr] at hf
            simp only [Option.map_some'] at hf
            injection hf with hout
            subst hout
            rw [validArgsGo_lit_step fuel c fmtT args hc] at hv
            have hrec := ih fmtT args sf out' rest ret
              (by simp only [List.length_cons] at hlen; omega) hv hfr
            rw [parseLoop_lit_step fuel c fmtT _ ret hc, List.cons_append]
            simp [hrec]
        · rw [if_neg h128] at hf; simp at hf

/-- A literal template byte heads the `formatGo` output. -/
theorem formatGo_lit_cons (fuel : Nat) (sf : Option Nat) (c : Nat) (fmtT : List Nat)
    (args : List PyVal) (out : List Nat) (hc : c ≠ 37)
    (hf : formatGo (fuel + 1) sf (c :: fmtT) args = some out) :
    ∃ out', out = c :: out' ∧ c < 128 ∧ formatGo fuel sf fmtT args = some out' := by
  rw [formatGo_lit_step fuel c sf fmtT args hc] at hf
  by_cases h128 : c < 128
  · rw [if_pos h128] at hf
    cases hfr : formatGo fuel sf fmtT args with
    | none => rw [hfr] at hf; simp at hf
    | some out' =>
      rw [hfr] at hf
      simp only [Option.map_some'] at hf
      injection hf with h
      exact ⟨out', h.symm, h128, rfl⟩
  · rw [if_neg h128] at hf; simp at hf

/-- The four leading literal bytes of a template head its `formatGo` output. -/
theorem format_prefix4 (fuel : Nat) (sf : Option Nat) (a b c d : Nat) (fmt' : List Nat)
    (args : List PyVal) (out : List Nat) (hfuel : 4 ≤ fuel)
    (ha : a ≠ 37) (hb : b ≠ 37) (hc : c ≠ 37) (hd : d ≠ 37)
    (hf : formatGo fuel sf (a :: b :: c :: d :: fmt') args = some out) :
    ∃ out', out = a :: b :: c :: d :: out' := by
  obtain ⟨f, rfl⟩ : ∃ f, fuel = f + 4 := ⟨fuel - 4, by omega⟩
  obtain ⟨o1, rfl, _, hf1⟩ := formatGo_lit_cons (f + 3) sf a _ args out ha hf
  obtain ⟨o2, rfl, _, hf2⟩ := formatGo_lit_cons (f + 2) sf b _ args o1 hb hf1
  obtain ⟨o3, rfl, _, hf3⟩ := formatGo_lit_cons (f + 1) sf c _ args o2 hc hf2
  obtain ⟨o4, rfl, _, _⟩ := formatGo_lit_cons f sf d _ args o3 hd hf3
  exact ⟨o4, rfl⟩

/-- Step lemma: one `parseGo` registry entry with an ASCII identifier. -/
theorem parseGo_cons (name fmt : List Nat) (rest : List (List Nat × List Nat))
    (msg : List Nat) (hascii : (fmt.take 4).all (· < 128) = true) :
    parseGo ((name, fmt) :: rest) msg =
      if msg.take 4 = fmt.take 4 then
        match parseFmt fmt msg with
        | ParseOut.ok vals => some (PyVal.str name :: vals)
        | _ => none
      else parseGo rest msg := by
  simp [parseGo, encodeAscii, hascii]

/-- The scan `parseGo` skips registry entries whose ASCII identifier differs from the
first four buffer bytes. -/
theorem parseGo_skip (pre rest : List (List Nat × List Nat)) (msg : List Nat)
    (h : ∀ p ∈ pre, (p.2.take 4).all (· < 128) = true ∧ p.2.take 4 ≠ msg.take 4) :
    parseGo (pre ++ rest) msg = parseGo rest msg := by
  induction pre with
  | nil => rfl
  | cons q pre' ih =>
    obtain ⟨qn, qf⟩ := q
    obtain ⟨hascii, hne⟩ := h (qn, qf) (by simp)
    rw [List.cons_append, parseGo_cons qn qf _ msg hascii,
      if_neg (fun heq => hne heq.symm)]
    exact ih (fun p hp => h p (by simp [hp]))

/-- Every registry template is at least four characters long and its 4-byte
identifier consists of ASCII bytes that are not the directive marker. -/
theorem msg_types_wf :
    ∀ p ∈ Protocol.msg_types,
      4 ≤ p.2.length ∧ ∀ c ∈ p.2.take 4, c < 128 ∧ c ≠ 37 := by decide

/-- Every registry identifier is exactly four ASCII bytes. -/
theorem msg_types_id4 :
    ∀ p ∈ Protocol.msg_types,
      (p.2.take 4).length = 4 ∧ (p.2.take 4).all (· < 128) = true := by decide

/-- The unpacker `struct.unpack` fails on a buffer shorter than the requested width. -/
theorem unpack_int_short (buf : List Nat) (width : Nat) (h : buf.length < width) :
    unpack_int buf width = none := by
  unfold unpack_int
  have hne : (buf.take width).length ≠ width := by
    simp only [List.length_take]
    omega
  simp [hne]
  intro _
  exact h

/-- Splitting a prefix of an appended list at the first part's length. -/
theorem prefix_split (x y tr : List Nat) (h : tr <+: x ++ y)
    (hlen : x.length ≤ tr.length) :
    tr.drop x.length <+: y ∧ tr = x ++ tr.drop x.length := by
  obtain ⟨s, hs⟩ := h
  have htake : tr.take x.length = x := by
    have h1 : (tr ++ s).take x.length = tr.take x.length :=
      List.take_append_of_le_length hlen
    rw [hs, List.take_left x y] at h1
    exact h1.symm
  constructor
  · have h3 : tr ++ s = x ++ (tr.drop x.length ++ s) := by
      conv_lhs => rw [← List.take_append_drop x.length tr, htake]
      rw [List.append_assoc]
    rw [h3] at hs
    exact ⟨s, List.append_cancel_left hs⟩
  · conv_lhs => rw [← List.take_append_drop x.length tr, htake]

/-- Step lemma: `intLitOnlyGo` on an integer directive. -/
theorem intLitOnlyGo_int_step (fuel width : Nat) (fmtT fmt2 : List Nat)
    (hri : read_int fmtT = some (width, 105 :: fmt2)) :
    intLitOnlyGo (fuel + 1) (37 :: fmtT) =
      (decide (width = 1 ∨ width = 2 ∨ width = 4) && intLitOnlyGo fuel fmt2) := by
  simp [intLitOnlyGo, hri]

/-- Step lemma: `intLitOnlyGo` rejects non-integer directives. -/
theorem intLitOnlyGo_other_step (fuel width fmtId : Nat) (fmtT fmt2 : List Nat)
    (hri : read_int fmtT = some (width, fmtId :: fmt2)) (hfi : fmtId ≠ 105) :
    intLitOnlyGo (fuel + 1) (37 :: fmtT) = false := by
  simp [intLitOnlyGo, hri, hfi]

/-- Step lemma: `intLitOnlyGo` on a literal template byte. -/
theorem intLitOnlyGo_lit_step (fuel c : Nat) (fmtT : List Nat) (hc : c ≠ 37) :
    intLitOnlyGo (fuel + 1) (c :: fmtT) = intLitOnlyGo fuel fmtT := by
  simp [intLitOnlyGo, hc]

/-- A buffer shorter than four bytes matches no registry identifier, so the
scan reaches the end of the registry and fails. -/
theorem parseGo_short (l : List (List Nat × List Nat)) (msg : List Nat)
    (h : ∀ p ∈ l, (p.2.take 4).length = 4 ∧ (p.2.take 4).all (· < 128) = true)
    (hm : msg.length < 4) : parseGo l msg = none := by
  induction l with
  | nil => rfl
  | cons q rest ih =>
    obtain ⟨qn, qf⟩ := q
    obtain ⟨hlen, hascii⟩ := h (qn, qf) (by simp)
    rw [parseGo_cons qn qf rest msg hascii, if_neg, ih (fun p hp => h p (by simp [hp]))]
    intro heq
    have h4 : (msg.take 4).length = 4 := by rw [heq, hlen]
    simp only [List.length_take] at h4
    omega

/-- Truncation lemma: for a template of literals and integer directives the
encoded length is fixed, so `parseLoop` on any strict prefix of a valid
encoding runs out of buffer inside a literal or an integer field and
raises. -/
theorem parseLoop_truncated :
    ∀ (fuel : Nat) (fmt : List Nat) (args : List PyVal) (sf : Option Nat)
      (out tr : List Nat) (ret : List PyVal),
      fmt.length < fuel →
      intLitOnlyGo fuel fmt = true →
      formatGo fuel sf fmt args = some out →
      tr <+: out → tr ≠ out →
      parseLoop fuel fmt tr ret = ParseOut.error := by
  intro fuel
  induction fuel with
  | zero => intro fmt _ _ _ _ _ h _ _ _ _; omega
  | succ fuel ih =>
    intro fmt args sf out tr ret hlen hint hf hpre hne
    cases fmt with
    | nil =>
      simp only [formatGo] at hf
      injection hf with h
      subst h
      exact absurd (List.prefix_nil.mp hpre) hne
    | cons c fmtT =>
      by_cases hc : c = 37
      · subst hc
        cases hri : read_int fmtT with
        | none => simp [intLitOnlyGo, hri] at hint
        | some wfmt1 =>
          obtain ⟨width, fmt1⟩ := wfmt1
          cases fmt1 with
          | nil => simp [intLitOnlyGo, hri] at hint
          | cons fmtId fmt2 =>
            by_cases hfi : fmtId = 105
            · subst hfi
              rw [intLitOnlyGo_int_step fuel width fmtT fmt2 hri] at hint
              simp only [Bool.and_eq_true, decide_eq_true_eq] at hint
              obtain ⟨hw, hint2⟩ := hint
              have hw0 : width ≠ 0 := by rcases hw with rfl | rfl | rfl <;> omega
              have hlen2 : fmt2.length < fuel := by
                have h1 := read_int_length fmtT width (105 :: fmt2) hri
                simp only [List.length_cons] at h1 hlen
                omega
              cases args with
              | nil => simp [formatGo, hri] at hf
              | cons a args' =>
                cases a with
                | int n =>
                  rw [formatGo_int_step fuel width sf fmtT fmt2 n args' hri hw0 hw] at hf
                  by_cases hrange : packRange n width
                  · rw [if_pos hrange] at hf
                    cases hfr : formatGo fuel (some width) fmt2 args' with
                    | none => rw [hfr] at hf; simp at hf
                    | some out' =>
                      rw [hfr] at hf
                      simp only [Option.map_some'] at hf
                      injection hf with hout
                      subst hout
                      rw [parseLoop_int_step fuel width fmtT fmt2 tr ret hri hw0]
                      by_cases htr : tr.length < width
                      · rw [unpack_int_short tr width htr]
                      · push_neg at htr
                        have hxlen : (packBE width (ofSigned n width)).length ≤ tr.length := by
                          rw [packBE_length]; exact htr
                        obtain ⟨hdrop, htr_eq⟩ :=
                          prefix_split (packBE width (ofSigned n width)) out' tr hpre hxlen
                        rw [packBE_length] at hdrop htr_eq
                        conv_lhs => rw [htr_eq]
                        rw [unpack_int_packBE width hw (ofSigned n width) (ofSigned_lt n width)]
                        have hne' : tr.drop width ≠ out' := by
                          intro h
                          rw [h] at htr_eq
                          exact hne htr_eq
                        exact ih fmt2 args' (some width) out' (tr.drop width)
                          (ret ++ [PyVal.int (toSigned (ofSigned n width) width)])
                          hlen2 hint2 hfr hdrop hne'
                  · rw [if_neg hrange] at hf; simp at hf
                | str s => simp [formatGo, hri] at hf
                | bytes b => simp [formatGo, hri] at hf
                | list xs => simp [formatGo, hri] at hf
            · rw [intLitOnlyGo_other_step fuel width fmtId fmtT fmt2 hri hfi] at hint
              simp at hint
      · rw [intLitOnlyGo_lit_step fuel c fmtT hc] at hint
        rw [formatGo_lit_step fuel c sf fmtT args hc] at hf
        by_cases h128 : c < 128
        · rw [if_pos h128] at hf
          cases hfr : formatGo fuel sf fmtT args with
          | none => rw [hfr] at hf; simp at hf
          | some out' =>
            rw [hfr] at hf
            simp only [Option.map_some'] at hf
            injection hf with hout
            subst hout
            rw [parseLoop_lit_step fuel c fmtT tr ret hc]
            cases tr with
            | nil => simp
            | cons t tr' =>
              obtain ⟨ht, htr⟩ := List.cons_prefix_cons.mp hpre
              subst ht
              have hne' : tr' ≠ out' := by
                intro h
                rw [h] at hne
                exact hne rfl
              have hlen' : fmtT.length < fuel := by
                simp only [List.length_cons] at hlen
                omega
              simp only [if_neg (by omega : ¬ t ≠ t)]
              exact ih fmtT args sf out' tr' ret hlen' hint hfr htr hne'
        · rw [if_neg h128] at hf; simp at hf

/-- Unfolding of `vecGo` at zero count. -/
theorem vecGo_zero (i : Nat) (msg : List Nat) (acc : List VecElem) :
    vecGo 0 i msg acc = some (acc, msg) := rfl

/-- One-step unfolding of `vecGo` at positive count. -/
theorem vecGo_succ (k i : Nat) (msg : List Nat) (acc : List VecElem) :
    vecGo (k + 1) i msg acc =
      if i % 2 = 0 then
        if (msg.take 4).all (· < 128) then
          vecGo k (i + 1) (msg.drop 4) (acc ++ [VecElem.str (msg.take 4)])
        else none
      else
        match unpack_int msg 4 with
        | none => none
        | some (v, msg') => vecGo k (i + 1) msg' (acc ++ [VecElem.int v]) := rfl

/-- An even vector position consumes a 4-byte ASCII tag. -/
theorem vecGo_even (k j : Nat) (t restm : List Nat) (acc : List VecElem)
    (ht4 : t.length = 4) (hascii : t.all (· < 128) = true) :
    vecGo (k + 1) (2 * j) (t ++ restm) acc =
      vecGo k (2 * j + 1) restm (acc ++ [VecElem.str t]) := by
  rw [vecGo_succ, if_pos (by omega : (2 * j) % 2 = 0),
    List.take_left' ht4, List.drop_left' ht4, if_pos hascii]

/-- An odd vector position consumes a 4-byte big-endian signed integer. -/
theorem vecGo_odd (k j : Nat) (v : Int) (restm : List Nat) (acc : List VecElem)
    (hvr : packRange v 4) :
    vecGo (k + 1) (2 * j + 1) (packBE 4 (ofSigned v 4) ++ restm) acc =
      vecGo k (2 * j + 2) restm (acc ++ [VecElem.int v]) := by
  rw [vecGo_succ, if_neg (by omega : ¬ (2 * j + 1) % 2 = 0),
    unpack_int_packBE 4 (by omega) (ofSigned v 4) (ofSigned_lt v 4) restm,
    toSigned_ofSigned v 4 (by omega) hvr]

/-- The reinterpretation `toSigned` is the identity below the sign bit. -/
theorem toSigned_of_lt (u w : Nat) (h : u < 2 ^ (8 * w - 1)) :
    toSigned u w = (u : Int) := by
  unfold toSigned
  rw [if_pos h]

/-- The vector loop decodes a well-formed tag/value pair encoding into the
interleaved tag/value list, leaving trailing bytes untouched. -/
theorem vecGo_encVec :
    ∀ (pairs : List (List Nat × Int)) (j : Nat) (acc : List VecElem) (restMsg : List Nat),
      (∀ p ∈ pairs, p.1.length = 4 ∧ p.1.all (· < 128) = true ∧ packRange p.2 4) →
      vecGo (2 * pairs.length) (2 * j) (encVec pairs ++ restMsg) acc =
        some (acc ++ pairs.flatMap (fun p => [VecElem.str p.1, VecElem.int p.2]),
          restMsg) := by
  intro pairs
  induction pairs with
  | nil =>
    intro j acc restMsg _
    simp [encVec, vecGo_zero]
  | cons p ps ih =>
    intro j acc restMsg h
    obtain ⟨t, v⟩ := p
    obtain ⟨ht4, htascii, hvr⟩ := h (t, v) (by simp)
    have hcount : 2 * ((t, v) :: ps).length = 2 * ps.length + 1 + 1 := by
      simp [List.length_cons]
      ring
    have henc : encVec ((t, v) :: ps) ++ restMsg =
        t ++ (packBE 4 (ofSigned v 4) ++ (encVec ps ++ restMsg)) := by
      simp [encVec, List.flatMap_cons, List.append_assoc]
    rw [hcount, henc,
      vecGo_even (2 * ps.length + 1) j t _ acc ht4 htascii,
      vecGo_odd (2 * ps.length) j v _ _ hvr]
    have h2 : 2 * j + 2 = 2 * (j + 1) := by ring
    rw [h2, ih (j + 1) _ restMsg (fun q hq => h q (by simp [hq]))]
    simp

/-- Decomposition of a successful scan: `parseGo` returning a value singles
out one registry entry whose identifier matches the first four buffer
bytes, every earlier entry having an ASCII identifier that does not match,
and the result list is headed by that entry's name. -/
theorem parseGo_head :
    ∀ (l : List (List Nat × List Nat)) (msg : List Nat) (vals : List PyVal),
      parseGo l msg = some vals →
      ∃ pre name fmt post rest,
        l = pre ++ (name, fmt) :: post ∧
        (∀ p ∈ pre, (p.2.take 4).all (· < 128) = true ∧ p.2.take 4 ≠ msg.take 4) ∧
        msg.take 4 = fmt.take 4 ∧
        vals = PyVal.str name :: rest := by
  intro l
  induction l with
  | nil =>
    intro msg vals h
    exact absurd h (by simp [parseGo])
  | cons q l' ih =>
    intro msg vals h
    obtain ⟨qn, qf⟩ := q
    by_cases hascii : (qf.take 4).all (· < 128) = true
    · rw [parseGo_cons qn qf l' msg hascii] at h
      by_cases hmatch : msg.take 4 = qf.take 4
      · rw [if_pos hmatch] at h
        cases hpf : parseFmt qf msg with
        | ok vals' =>
          rw [hpf] at h
          simp only [Option.some.injEq] at h
          exact ⟨[], qn, qf, l', vals', rfl, by simp, hmatch, h.symm⟩
        | mismatch => rw [hpf] at h; simp at h
        | error => rw [hpf] at h; simp at h
      · rw [if_neg hmatch] at h
        obtain ⟨pre, name, fmt, post, rest, hl, hpre, hm, hv⟩ := ih msg vals h
        refine ⟨(qn, qf) :: pre, name, fmt, post, rest, by rw [hl, List.cons_append],
          ?_, hm, hv⟩
        intro p hp
        rcases List.mem_cons.mp hp with rfl | hp'
        · exact ⟨hascii, fun heq => hmatch heq.symm⟩
        · exact hpre p hp'
    · exfalso
      have hnone : parseGo ((qn, qf) :: l') msg = none := by
        simp [parseGo, encodeAscii, hascii]
      rw [hnone] at h
      simp at h

/-- Core of the shadowing argument: if `bad` occurs in the registry only
with template `badFmt`, and every registry position holding `(bad, badFmt)`
is preceded by the entry `(twinN, twinF)` whose identifier equals
`badFmt`'s, then no successful parse is named `bad` — the scan would have
stopped at the twin first. -/
theorem parse_shadow_core (msg : List Nat) (vals : List PyVal)
    (bad badFmt twinN twinF : List Nat)
    (h : Protocol.parse msg = some vals)
    (huniq : ∀ p ∈ Protocol.msg_types, p.1 = bad → p.2 = badFmt)
    (htwin : ∀ k ∈ List.range 36, Protocol.msg_types[k]? = some (bad, badFmt) →
      (twinN, twinF) ∈ Protocol.msg_types.take k)
    (hpref : twinF.take 4 = badFmt.take 4) :
    vals.head? ≠ some (PyVal.str bad) := by
  intro hcontra
  obtain ⟨pre, name, fmt, post, rest, hl, hpre, hm, hv⟩ :=
    parseGo_head Protocol.msg_types msg vals h
  rw [hv] at hcontra
  simp only [List.head?_cons, Option.some.injEq, PyVal.str.injEq] at hcontra
  subst hcontra
  have hmem : (name, fmt) ∈ Protocol.msg_types := by rw [hl]; simp
  have hfmt : fmt = badFmt := huniq _ hmem rfl
  have hlen := congrArg List.length hl
  have hlen36 : Protocol.msg_types.length = 36 := by decide
  rw [hlen36] at hlen
  simp only [List.length_append, List.length_cons] at hlen
  have hidx : pre.length < 36 := by omega
  have hget : Protocol.msg_types[pre.length]? = some (name, badFmt) := by
    rw [hl, List.getElem?_append_right (Nat.le_refl pre.length)]
    simp [hfmt]
  have hmem2 := htwin pre.length (List.mem_range.mpr hidx) hget
  have hpre_eq : Protocol.msg_types.take pre.length = pre := by
    rw [hl]
    exact List.take_left pre _
  rw [hpre_eq] at hmem2
  obtain ⟨_, hne⟩ := hpre _ hmem2
  have hmb : msg.take 4 = badFmt.take 4 := by rw [hm, hfmt]
  exact hne (hpref.trans hmb.symm)

/-- A matching literal byte advances both template and buffer. -/
theorem parseLoop_lit_eq (fuel c : Nat) (fmtT msg' : List Nat) (ret : List PyVal)
    (hc : c ≠ 37) :
    parseLoop (fuel + 1) (c :: fmtT) (c :: msg') ret = parseLoop fuel fmtT msg' ret := by
  rw [parseLoop_lit_step fuel c fmtT (c :: msg') ret hc]
  simp

/-- Shared scan lemma: the `format` output of a registry definition whose
4-byte identifier is not claimed by an earlier entry parses back to that
definition's name and argument values, and any bytes appended after the
encoding are ignored, because the template walk stops when the template is
exhausted. -/
theorem parse_format_with_tail
    (name fmt : List Nat) (pre post : List (List Nat × List Nat))
    (args : List PyVal) (out rest : List Nat)
    (hreg : Protocol.msg_types = pre ++ (name, fmt) :: post)
    (hpre : ∀ p ∈ pre, p.2.take 4 ≠ fmt.take 4)
    (hv : Protocol.validArgs fmt args = true)
    (hf : Protocol.format fmt args = some out) :
    Protocol.parse (out ++ rest) = some (PyVal.str name :: args.map outVal) := by
  have hmem : (name, fmt) ∈ Protocol.msg_types := by rw [hreg]; simp
  obtain ⟨h4, hlit⟩ := msg_types_wf _ hmem
  rcases fmt with _ | ⟨a, _ | ⟨b, _ | ⟨c, _ | ⟨d, fmt'⟩⟩⟩⟩ <;>
    simp only [List.length_nil, List.length_cons] at h4 <;> try omega
  have hta : (a :: b :: c :: d :: fmt').take 4 = [a, b, c, d] := rfl
  rw [hta] at hlit
  obtain ⟨ha1, ha2⟩ := hlit a (by simp)
  obtain ⟨hb1, hb2⟩ := hlit b (by simp)
  obtain ⟨hc1, hc2⟩ := hlit c (by simp)
  obtain ⟨hd1, hd2⟩ := hlit d (by simp)
  rw [Protocol.format] at hf
  obtain ⟨out', rfl⟩ := format_prefix4 _ none a b c d fmt' args out
    (by simp only [List.length_cons]; omega) ha2 hb2 hc2 hd2 hf
  have hout4 : ((a :: b :: c :: d :: out') ++ rest).take 4 = [a, b, c, d] := rfl
  rw [Protocol.parse, hreg]
  rw [parseGo_skip pre _ _ (by
    intro p hp
    have hpm : p ∈ Protocol.msg_types := by rw [hreg]; simp [hp]
    obtain ⟨_, hplit⟩ := msg_types_wf _ hpm
    refine ⟨List.all_eq_true.mpr (fun x hx => ?_), ?_⟩
    · exact decide_eq_true (hplit x hx).1
    · rw [hout4, ← hta]; exact hpre p hp)]
  rw [parseGo_cons name _ post _ (by
    rw [hta]
    simp [ha1, hb1, hc1, hd1])]
  rw [if_pos (by rw [hout4, hta])]
  have hpl := parseLoop_formatGo ((a :: b :: c :: d :: fmt').length + 1)
    (a :: b :: c :: d :: fmt') args none (a :: b :: c :: d :: out') rest []
    (by omega) hv hf
  rw [parseFmt]
  rw [show (a :: b :: c :: d :: out') ++ rest =
    (a :: b :: c :: d :: out') ++ rest from rfl]
  rw [hpl]
  simp

end Protocol

/-- C1 (amended): for every Message Definition whose template contains only
literal bytes, integer directives and string directives (which is what
`Protocol.validArgs` accepts arguments for), and whose 4-byte identifier is
not already claimed by an earlier-registered definition, parsing the bytes
produced by `Protocol.format` for any valid argument tuple yields exactly
the definition's name followed by the same argument values — with each
string argument returned as its raw ASCII bytes, since the decoder does not
decode string contents back to text. -/
theorem roundtrip_first_prefix_match
    (name fmt : List Nat) (pre post : List (List Nat × List Nat))
    (args : List PyVal) (out : List Nat)
    (hreg : Protocol.msg_types = pre ++ (name, fmt) :: post)
    (hpre : ∀ p ∈ pre, p.2.take 4 ≠ fmt.take 4)
    (hv : Protocol.validArgs fmt args = true)
    (hf : Protocol.format fmt args = some out) :
    Protocol.parse out = some (PyVal.str name :: args.map outVal) := by
  have h := Protocol.parse_format_with_tail name fmt pre post args out []
    hreg hpre hv hf
  rwa [List.append_nil] at h

/-- C2 counterexample: `kMsgHello` and `kMsgHelloBack` are distinct Message
Definitions of the registry sharing the same first four template bytes
`Syne`, so 4-byte identifiers are not pairwise distinct and lookup by
identifier alone cannot distinguish them. -/
theorem hello_prefix_collision :
    (strBytes "kMsgHello", ProtocolMsg.kMsgHello) ∈ Protocol.msg_types ∧
    (strBytes "kMsgHelloBack", ProtocolMsg.kMsgHelloBack) ∈ Protocol.msg_types ∧
    strBytes "kMsgHello" ≠ strBytes "kMsgHelloBack" ∧
    ProtocolMsg.kMsgHello.take 4 = ProtocolMsg.kMsgHelloBack.take 4 :=
  ⟨by decide, by decide, by decide, by decide⟩

/-- C2 (amended): 4-byte identifiers are pairwise distinct among all
Message Definitions except five — `kMsgHelloBack`, `kMsgDKeyDown1_0`,
`kMsgDKeyRepeat1_0`, `kMsgDKeyUp1_0` and `kMsgDMouseWheel1_0` — each of
which reuses the identifier of an earlier non-shadowed definition, so
lookup by identifier is unambiguous only once those five are excluded. -/
theorem prefix_unique_except_versioned :
    (Protocol.msg_types.filter
        (fun p => decide (p.1 ∉ shadowedNames))).Pairwise
      (fun p q => p.2.take 4 ≠ q.2.take 4) ∧
    (∀ p ∈ Protocol.msg_types, p.1 ∈ shadowedNames →
      ∃ q ∈ Protocol.msg_types, q.1 ∉ shadowedNames ∧ q.2.take 4 = p.2.take 4) :=
  ⟨by decide, by decide⟩

/-- C3 (amended): for a Message Definition whose template has only literal
bytes and integer directives (fixed byte length) and whose identifier is
not claimed earlier, parsing any strict truncation of a valid encoding
fails; but the end-of-template check claimed by the specification does not
exist: a valid encoding followed by arbitrary extra bytes still parses
successfully, silently ignoring the tail, and truncation inside a string
directive's content yields a partial result (see the counterexample). -/
theorem truncation_and_tail
    (name fmt : List Nat) (pre post : List (List Nat × List Nat))
    (args : List PyVal) (out : List Nat)
    (hreg : Protocol.msg_types = pre ++ (name, fmt) :: post)
    (hpre : ∀ p ∈ pre, p.2.take 4 ≠ fmt.take 4)
    (hint : Protocol.intLitOnly fmt = true)
    (hv : Protocol.validArgs fmt args = true)
    (hf : Protocol.format fmt args = some out) :
    (∀ k, k < out.length → Protocol.parse (out.take k) = none) ∧
    (∀ tail, Protocol.parse (out ++ tail) =
      some (PyVal.str name :: args.map outVal)) := by
  constructor
  · intro k hk
    by_cases hk4 : k < 4
    · apply Protocol.parseGo_short _ _ Protocol.msg_types_id4
      simp only [List.length_take]
      omega
    · push_neg at hk4
      have hmem : (name, fmt) ∈ Protocol.msg_types := by rw [hreg]; simp
      obtain ⟨h4, hlit⟩ := Protocol.msg_types_wf _ hmem
      rcases fmt with _ | ⟨a, _ | ⟨b, _ | ⟨c, _ | ⟨d, fmt'⟩⟩⟩⟩ <;>
        simp only [List.length_nil, List.length_cons] at h4 <;> try omega
      have hta : (a :: b :: c :: d :: fmt').take 4 = [a, b, c, d] := rfl
      rw [hta] at hlit
      obtain ⟨ha1, ha2⟩ := hlit a (by simp)
      obtain ⟨hb1, hb2⟩ := hlit b (by simp)
      obtain ⟨hc1, hc2⟩ := hlit c (by simp)
      obtain ⟨hd1, hd2⟩ := hlit d (by simp)
      rw [Protocol.format] at hf
      obtain ⟨out', houtsh⟩ := Protocol.format_prefix4 _ none a b c d fmt' args out
        (by simp only [List.length_cons]; omega) ha2 hb2 hc2 hd2 hf
      have hout4 : (out.take k).take 4 = [a, b, c, d] := by
        rw [List.take_take, min_eq_left hk4, houtsh]
        rfl
      rw [Protocol.parse, hreg]
      rw [Protocol.parseGo_skip pre _ _ (by
        intro p hp
        have hpm : p ∈ Protocol.msg_types := by rw [hreg]; simp [hp]
        obtain ⟨_, hplit⟩ := Protocol.msg_types_wf _ hpm
        refine ⟨List.all_eq_true.mpr (fun x hx => decide_eq_true (hplit x hx).1), ?_⟩
        rw [hout4, ← hta]
        exact hpre p hp)]
      rw [Protocol.parseGo_cons name _ post _ (by
        rw [hta]
        simp [ha1, hb1, hc1, hd1])]
      rw [if_pos (by rw [hout4, hta])]
      rw [Protocol.parseFmt,
        Protocol.parseLoop_truncated ((a :: b :: c :: d :: fmt').length + 1)
          (a :: b :: c :: d :: fmt') args none out (out.take k) []
          (by omega) hint hf (⟨out.drop k, List.take_append_drop k out⟩)
          (by
            intro heq
            have hlen := congrArg List.length heq
            simp only [List.length_take] at hlen
            omega)]
  · intro tail
    exact Protocol.parse_format_with_tail name fmt pre post args out tail
      hreg hpre hv hf

/-- C3 counterexample: the valid encoding of `kMsgDFileTransfer` with
arguments `(1, 'ab')` is `DFTR 01 00000002 ab`; cutting off the final byte
still parses successfully and returns the truncated string content `a` — a
partial result instead of a decode failure — because string content is
sliced leniently from whatever bytes remain. -/
theorem truncated_string_partial_result :
    Protocol.format ProtocolMsg.kMsgDFileTransfer
        [PyVal.int 1, PyVal.str (strBytes "ab")] =
      some [68, 70, 84, 82, 1, 0, 0, 0, 2, 97, 98] ∧
    Protocol.parse [68, 70, 84, 82, 1, 0, 0, 0, 2, 97] =
      some [PyVal.str (strBytes "kMsgDFileTransfer"), PyVal.int 1, PyVal.bytes [97]] :=
  ⟨by decide, by decide⟩

/-- Witness for C3: `kMsgDMouseMove` encoded with arguments `(3, 4)`; the
5-byte truncation fails to parse, while appending a stray byte after the
full 8-byte encoding still parses successfully. -/
theorem truncation_and_tail_witness :
    Protocol.parse ([68, 77, 77, 86, 0, 3, 0, 4].take 5) = none ∧
    Protocol.parse ([68, 77, 77, 86, 0, 3, 0, 4] ++ [9]) =
      some [PyVal.str (strBytes "kMsgDMouseMove"), PyVal.int 3, PyVal.int 4] := by
  have h := truncation_and_tail (strBytes "kMsgDMouseMove") ProtocolMsg.kMsgDMouseMove
    (Protocol.msg_types.take 20) (Protocol.msg_types.drop 21)
    [PyVal.int 3, PyVal.int 4] [68, 77, 77, 86, 0, 3, 0, 4]
    (by decide) (by decide) (by decide) (by decide) (by decide)
  exact ⟨h.1 5 (by decide), h.2 [9]⟩

/-- C1 counterexample: `kMsgHelloBack` shares its 4-byte identifier `Syne`
with the earlier-registered `kMsgHello`, so parsing the bytes produced by
`format(kMsgHelloBack, 1, 6, 'tablet')` yields `kMsgHello` with arguments
`[1, 6]` — not `kMsgHelloBack` with `[1, 6, 'tablet']` — because the parser
stops at the first matching prefix and ignores the trailing string bytes. -/
theorem helloBack_roundtrip_fails :
    Protocol.format ProtocolMsg.kMsgHelloBack
        [PyVal.int 1, PyVal.int 6, PyVal.str (strBytes "tablet")] =
      some (strBytes "Synergy" ++ [0, 1, 0, 6, 0, 0, 0, 6] ++ strBytes "tablet") ∧
    Protocol.parse (strBytes "Synergy" ++ [0, 1, 0, 6, 0, 0, 0, 6] ++ strBytes "tablet") =
      some [PyVal.str (strBytes "kMsgHello"), PyVal.int 1, PyVal.int 6] :=
  ⟨by decide, by decide⟩

/-- Witness for C1: the round-trip theorem applied to `kMsgDKeyRepeat`
(four integer directives and a string directive) with concrete arguments. -/
theorem roundtrip_first_prefix_match_witness :
    Protocol.parse (strBytes "DKRP" ++ [0, 1, 0, 2, 0, 3, 0, 4, 0, 0, 0, 2] ++ strBytes "ab") =
      some [PyVal.str (strBytes "kMsgDKeyRepeat"), PyVal.int 1, PyVal.int 2,
        PyVal.int 3, PyVal.int 4, PyVal.bytes (strBytes "ab")] := by
  have h := roundtrip_first_prefix_match (strBytes "kMsgDKeyRepeat")
    ProtocolMsg.kMsgDKeyRepeat
    (Protocol.msg_types.take 14) (Protocol.msg_types.drop 15)
    [PyVal.int 1, PyVal.int 2, PyVal.int 3, PyVal.int 4, PyVal.str (strBytes "ab")]
    (strBytes "DKRP" ++ [0, 1, 0, 2, 0, 3, 0, 4, 0, 0, 0, 2] ++ strBytes "ab")
    (by decide) (by decide) (by decide) (by decide)
  exact h

/-- C4 (code bug): `Stream.read` must loop until the length-prefixed byte
count is satisfied, but the source subtracts the cumulative buffer length
(`to_receive -= len(data)`) instead of the last chunk's length.  With
length prefix 4 and the payload delivered in chunks of 2 then 1 bytes, the
loop exits after the second chunk and returns only 3 bytes even though a
fourth is available; a connection closed mid-frame (second conjunct)
likewise returns a silently truncated 2-byte buffer instead of raising a
transport error. -/
theorem stream_read_partial_read_bug :
    Stream.read 8 [[0, 0, 0, 4], [1, 2], [3], [4]] = some (some [1, 2, 3]) ∧
    Stream.read 8 [[0, 0, 0, 4], [1, 2]] = some (some [1, 2]) :=
  ⟨by decide, by decide⟩

/-- C5: the dispatcher derives the handler key exactly as described — strip
the 4-character `kMsg` marker, insert an underscore boundary before each
capitalized segment, lower-case, and prefix `on` (so `kMsgDInfo` maps to
`on_d_info`) — equalling the specification-style derivation whenever the
name after the marker starts with a capital letter, as every registry name
does; and when no handler method exists under the derived key the lookup
raises `KeyError` (returns `none`), never silently succeeding. -/
theorem handler_key_derivation (name : List Nat) (c : Nat) (rest : List Nat)
    (hdrop : name.drop 4 = c :: rest) (hc : 65 ≤ c ∧ c ≤ 90) :
    MessageHandler.deriveKey name = deriveKeySpec name ∧
    (MessageHandler.deriveKey name ∉ MessageHandler.handlerNames →
      MessageHandler.get_handler name = none) ∧
    (MessageHandler.deriveKey name ∈ MessageHandler.handlerNames →
      MessageHandler.get_handler name = some (MessageHandler.deriveKey name)) := by
  refine ⟨?_, ?_, ?_⟩
  · rw [MessageHandler.deriveKey, deriveKeySpec, hdrop]
    simp [List.flatMap_cons, hc, strBytes]
  · intro h
    rw [MessageHandler.get_handler, if_neg h]
  · intro h
    rw [MessageHandler.get_handler, if_pos h]

/-- Witness for C5: concrete instances of the key derivation — `kMsgDInfo`
resolves to the registered handler key `on_d_info`, and the registry-shaped
name `kMsgFooBar` derives `on_foo_bar`, which has no handler, so lookup
fails. -/
theorem handler_key_derivation_witness :
    MessageHandler.get_handler (strBytes "kMsgDInfo") = some (strBytes "on_d_info") ∧
    MessageHandler.get_handler (strBytes "kMsgFooBar") = none ∧
    MessageHandler.deriveKey (strBytes "kMsgDInfo") = deriveKeySpec (strBytes "kMsgDInfo") := by
  refine ⟨?_, ?_, ?_⟩
  · exact ((handler_key_derivation (strBytes "kMsgDInfo") 68 (strBytes "Info")
      (by decide) (by decide)).2.2 (by decide)).trans (by decide)
  · exact (handler_key_derivation (strBytes "kMsgFooBar") 70 (strBytes "ooBar")
      (by decide) (by decide)).2.1 (by decide)
  · exact (handler_key_derivation (strBytes "kMsgDInfo") 68 (strBytes "Info")
      (by decide) (by decide)).1

/-- C6: the handshake scenario — the frame payload `Synergy 0001 0006`
parses to the `kMsgHello` message with arguments `[1, 6]`; dispatching it
resolves the `on_hello` handler, whose reply is the `kMsgHelloBack`
encoding `Synergy`, big-endian 16-bit `0001` and `0006`, big-endian 32-bit
length `00000006`, then `tablet`. -/
theorem hello_scenario :
    Protocol.parse (strBytes "Synergy" ++ [0, 1, 0, 6]) =
      some [PyVal.str (strBytes "kMsgHello"), PyVal.int 1, PyVal.int 6] ∧
    MessageHandler.get_handler (strBytes "kMsgHello") = some (strBytes "on_hello") ∧
    MessageHandler.on_hello
        [PyVal.str (strBytes "kMsgHello"), PyVal.int 1, PyVal.int 6] =
      some (strBytes "Synergy" ++ [0, 1] ++ [0, 6] ++ [0, 0, 0, 6] ++ strBytes "tablet") :=
  ⟨by decide, by decide, by decide⟩

/-- C7: width-1 integer fidelity — formatting value 127 through a `%1i`
directive and scanning the byte back returns 127; formatting 128 fails
(`struct.error`, the value does not fit a signed byte); and decoding the
single byte `0x80` yields -128, i.e. big-endian two's-complement of the
declared width. -/
theorem int_width1_fidelity :
    Protocol.format (strBytes "%1i") [PyVal.int 127] = some [127] ∧
    Protocol.parseFmt (strBytes "%1i") [127] = Protocol.ParseOut.ok [PyVal.int 127] ∧
    Protocol.format (strBytes "%1i") [PyVal.int 128] = none ∧
    Protocol.unpack_int [128] 1 = some (-128, []) ∧
    Protocol.parseFmt (strBytes "%1i") [128] = Protocol.ParseOut.ok [PyVal.int (-128)] :=
  ⟨by decide, by decide, by decide, by decide, by decide⟩

/-- C8: a template literal that does not match the next buffer byte makes
`Protocol.parse` fail, including literals beyond the 4-byte identifier: any
buffer starting `Syne` selects `kMsgHello`, and if its fifth byte is not
`r` (114) the scan's `return None` surfaces as a parse failure — never a
silent termination or a partial success. -/
theorem literal_mismatch_fails (b : Nat) (rest : List Nat) (hb : b ≠ 114) :
    Protocol.parse (83 :: 121 :: 110 :: 101 :: b :: rest) = none := by
  have hm : Protocol.parseFmt ProtocolMsg.kMsgHello
      (83 :: 121 :: 110 :: 101 :: b :: rest) = Protocol.ParseOut.mismatch := by
    rw [show ProtocolMsg.kMsgHello =
      [83, 121, 110, 101, 114, 103, 121, 37, 50, 105, 37, 50, 105] from by decide]
    show Protocol.parseLoop (13 + 1) _ _ [] = Protocol.ParseOut.mismatch
    rw [Protocol.parseLoop_lit_eq 13 83 _ _ _ (by decide),
      Protocol.parseLoop_lit_eq 12 121 _ _ _ (by decide),
      Protocol.parseLoop_lit_eq 11 110 _ _ _ (by decide),
      Protocol.parseLoop_lit_eq 10 101 _ _ _ (by decide),
      Protocol.parseLoop_lit_step 9 114 _ _ _ (by decide)]
    simp only []
    rw [if_pos (Ne.symm hb)]
  rw [Protocol.parse]
  rw [show Protocol.msg_types =
    (strBytes "kMsgHello", ProtocolMsg.kMsgHello) :: Protocol.msg_types.tail from rfl]
  rw [Protocol.parseGo_cons _ _ _ _ (by decide)]
  rw [if_pos (show List.take 4 (83 :: 121 :: 110 :: 101 :: b :: rest) =
    List.take 4 ProtocolMsg.kMsgHello from by rfl)]
  rw [hm]

/-- Witness for C8: the buffer `SyneX` (fifth byte `X` instead of `r`)
fails to parse. -/
theorem literal_mismatch_fails_witness :
    Protocol.parse [83, 121, 110, 101, 88] = none :=
  literal_mismatch_fails 88 [] (by decide)

/-- C9: decoding a vector directive consumes a 4-byte big-endian signed
element count `N` and then `N` elements alternating between 4-byte ASCII
tags (even positions) and 4-byte big-endian signed integers (odd
positions), collected as one ordered list appended as a single argument:
for any well-formed pair list, the `DSOP%4I` message built from count `2k`
and the pair encodings parses to `kMsgDSetOptions` with that single
interleaved list argument. -/
theorem vector_decode_pairs (pairs : List (List Nat × Int))
    (hp : ∀ p ∈ pairs, p.1.length = 4 ∧ p.1.all (· < 128) = true ∧
      Protocol.packRange p.2 4)
    (hN : 2 * pairs.length < 2 ^ 31) :
    Protocol.parse (strBytes "DSOP" ++ Protocol.packBE 4 (2 * pairs.length) ++
        encVec pairs) =
      some [PyVal.str (strBytes "kMsgDSetOptions"),
        PyVal.list (pairs.flatMap (fun p => [VecElem.str p.1, VecElem.int p.2]))] := by
  have hshape : strBytes "DSOP" ++ Protocol.packBE 4 (2 * pairs.length) ++ encVec pairs =
      68 :: 83 :: 79 :: 80 :: (Protocol.packBE 4 (2 * pairs.length) ++ encVec pairs) := by
    rw [List.append_assoc]
    rfl
  rw [hshape, Protocol.parse]
  rw [show Protocol.msg_types =
    Protocol.msg_types.take 26 ++ Protocol.msg_types.drop 26 from
    (List.take_append_drop 26 Protocol.msg_types).symm]
  rw [Protocol.parseGo_skip _ _ _ (by
    have hall : ∀ p ∈ Protocol.msg_types.take 26,
        (p.2.take 4).all (· < 128) = true ∧ p.2.take 4 ≠ [68, 83, 79, 80] := by decide
    intro p hp2
    exact ⟨(hall p hp2).1, (hall p hp2).2⟩)]
  rw [show Protocol.msg_types.drop 26 =
    (strBytes "kMsgDSetOptions", ProtocolMsg.kMsgDSetOptions) ::
      Protocol.msg_types.drop 27 from by decide]
  rw [Protocol.parseGo_cons _ _ _ _ (by decide)]
  rw [if_pos (show List.take 4 (68 :: 83 :: 79 :: 80 ::
    (Protocol.packBE 4 (2 * pairs.length) ++ encVec pairs)) =
    List.take 4 ProtocolMsg.kMsgDSetOptions from by rfl)]
  have hm : Protocol.parseFmt ProtocolMsg.kMsgDSetOptions
      (68 :: 83 :: 79 :: 80 :: (Protocol.packBE 4 (2 * pairs.length) ++ encVec pairs)) =
      Protocol.ParseOut.ok [PyVal.list
        (pairs.flatMap (fun p => [VecElem.str p.1, VecElem.int p.2]))] := by
    rw [show ProtocolMsg.kMsgDSetOptions = [68, 83, 79, 80, 37, 52, 73] from by decide]
    show Protocol.parseLoop (7 + 1) _ _ [] = _
    rw [Protocol.parseLoop_lit_eq 7 68 _ _ _ (by decide),
      Protocol.parseLoop_lit_eq 6 83 _ _ _ (by decide),
      Protocol.parseLoop_lit_eq 5 79 _ _ _ (by decide),
      Protocol.parseLoop_lit_eq 4 80 _ _ _ (by decide),
      Protocol.parseLoop_vec_step 3 4 [52, 73] [] _ [] (by decide) (by decide)]
    have hu : 2 * pairs.length < 2 ^ (8 * 4) := by norm_num at hN ⊢; omega
    rw [Protocol.unpack_int_packBE 4 (by omega) (2 * pairs.length) hu (encVec pairs),
      Protocol.toSigned_of_lt (2 * pairs.length) 4 (by norm_num at hN ⊢; omega)]
    have hvg := Protocol.vecGo_encVec pairs 0 [] [] hp
    rw [show (2 : Nat) * 0 = 0 from rfl] at hvg
    rw [show encVec pairs ++ ([] : List Nat) = encVec pairs from List.append_nil _] at hvg
    simp only [Int.toNat_natCast, hvg]
    rw [Protocol.parseLoop_nil_step 2]
    simp
  rw [hm]

/-- C10: a successful `Protocol.parse` never returns a result named
`kMsgHelloBack`, `kMsgDKeyDown1_0`, `kMsgDKeyRepeat1_0`, `kMsgDKeyUp1_0`
or `kMsgDMouseWheel1_0`: the scan checks Message Definitions in
registration order and each of these five shares its 4-byte identifier
with an earlier definition, so the earlier definition is always the one
selected (or the parse fails). -/
theorem parse_never_shadowed (msg : List Nat) (vals : List PyVal)
    (h : Protocol.parse msg = some vals) :
    ∀ bad ∈ shadowedNames, vals.head? ≠ some (PyVal.str bad) := by
  intro bad hbad
  fin_cases hbad
  · exact Protocol.parse_shadow_core msg vals _ ProtocolMsg.kMsgHelloBack
      (strBytes "kMsgHello") ProtocolMsg.kMsgHello h
      (by decide) (by decide) (by decide)
  · exact Protocol.parse_shadow_core msg vals _ ProtocolMsg.kMsgDKeyDown1_0
      (strBytes "kMsgDKeyDown") ProtocolMsg.kMsgDKeyDown h
      (by decide) (by decide) (by decide)
  · exact Protocol.parse_shadow_core msg vals _ ProtocolMsg.kMsgDKeyRepeat1_0
      (strBytes "kMsgDKeyRepeat") ProtocolMsg.kMsgDKeyRepeat h
      (by decide) (by decide) (by decide)
  · exact Protocol.parse_shadow_core msg vals _ ProtocolMsg.kMsgDKeyUp1_0
      (strBytes "kMsgDKeyUp") ProtocolMsg.kMsgDKeyUp h
      (by decide) (by decide) (by decide)
  · exact Protocol.parse_shadow_core msg vals _ ProtocolMsg.kMsgDMouseWheel1_0
      (strBytes "kMsgDMouseWheel") ProtocolMsg.kMsgDMouseWheel h
      (by decide) (by decide) (by decide)

/-- Witness for C10: parsing the handshake buffer succeeds with head
`kMsgHello`, and by the theorem that head is not any of the shadowed
names. -/
theorem parse_never_shadowed_witness :
    Protocol.parse (strBytes "Synergy" ++ [0, 1, 0, 6]) =
      some [PyVal.str (strBytes "kMsgHello"), PyVal.int 1, PyVal.int 6] ∧
    [PyVal.str (strBytes "kMsgHello"), PyVal.int 1,
        PyVal.int 6].head? ≠ some (PyVal.str (strBytes "kMsgHelloBack")) :=
  ⟨by decide,
    parse_never_shadowed (strBytes "Synergy" ++ [0, 1, 0, 6])
      [PyVal.str (strBytes "kMsgHello"), PyVal.int 1, PyVal.int 6]
      (by decide) (strBytes "kMsgHelloBack") (by decide)⟩

/-- Witness for C9: payload count `N = 2`, tag `CLPS`, value `00000001` —
the decoded argument is the single list `["CLPS", 1]`. -/
theorem vector_decode_clps_witness :
    Protocol.parse (strBytes "DSOP" ++ [0, 0, 0, 2] ++ strBytes "CLPS" ++ [0, 0, 0, 1]) =
      some [PyVal.str (strBytes "kMsgDSetOptions"),
        PyVal.list [VecElem.str (strBytes "CLPS"), VecElem.int 1]] := by
  have h := vector_decode_pairs [(strBytes "CLPS", 1)] (by decide) (by decide)
  rw [show strBytes "DSOP" ++
      Protocol.packBE 4 (2 * [(strBytes "CLPS", (1 : Int))].length) ++
      encVec [(strBytes "CLPS", 1)] =
      strBytes "DSOP" ++ [0, 0, 0, 2] ++ strBytes "CLPS" ++ [0, 0, 0, 1] from by decide] at h
  exact h.trans (by decide)
